import Mathlib

/-!
Shallow embedding of the FlowProp scripted-playback and forced-input engine.

The repository contains several near-duplicate implementations ("shells") of
the same design:

* `src/src/App.jsx` shell 1 (context provider, `useForcedTyping` at lines
  116-144, `LiveChat` at 617-685);
* `src/src/App.jsx` shell 2 (the regex `useForcedTyping` variant at lines
  745-784 and `LiveChatMode` at 1199-1346);
* `src/src/App.jsx` shell 3 (`LiveModeView.handleKeyDown` at 1946-1999);
* `src/unnamed/part_000` (fixed-text forced keyboard);
* `src/unnamed/part_001` (`ForcedTypingInput` at 77-124, `LiveScreen` at
  495-621).

Each namespace below embeds one shell.  Key-press identities reaching the
handlers are classified by the JavaScript tests `e.key === "Backspace"`,
`e.key === "Enter"` and `e.key.length === 1`; these are mutually exclusive,
which the inductive `Key` mirrors.  JavaScript numeric indices are embedded
as `Int` (so that the guarded decrements of the source are visibly what
keeps them non-negative), times and delays as `Rat`.
-/

/-- A classified keyboard signal.  `printable c` stands for any key event
whose key string has length one (the identity `c` of the pressed key is
carried so that theorems can state whether it matters); `other` stands for
every remaining control key. -/
inductive Key where
  | printable (c : Char)
  | backspace
  | enter
  | other
deriving Repr, DecidableEq

/-- State of a forced-typing hook: the text shown in the input field and the
current index into the script text. -/
structure FTState where
  displayText : List Char
  scriptIndex : Int
deriving Repr, DecidableEq

/-- Initial hook state: `useState("")` and `useState(0)`. -/
def ftFresh : FTState := ⟨[], 0⟩

/-- Generic driver: feed a list of key signals to a step function,
collecting the optionally emitted completions in order. -/
def runKeys {σ ε : Type} (step : σ → Key → σ × Option ε) :
    σ → List Key → σ × List ε
  | s, [] => (s, [])
  | s, k :: ks =>
    let p := step s k
    let q := runKeys step p.1 ks
    (q.1, p.2.toList ++ q.2)

namespace App1

/-- The `useForcedTyping` handler of shell 1 (App.jsx lines 120-139).
Backspace: when `scriptIndex > 0`, drop the last display character and
decrement.  Enter: when `scriptIndex >= scriptText.length`, call
`onComplete(displayText)` (the state is not reset here).  Any key of length
one: when `scriptIndex < scriptText.length`, append the next script
character (the pressed character itself is discarded) and increment. -/
def handleKeyDown (scriptText : List Char) (s : FTState) (k : Key) :
    FTState × Option (List Char) :=
  match k with
  | .backspace =>
    if 0 < s.scriptIndex then
      (⟨s.displayText.dropLast, s.scriptIndex - 1⟩, none)
    else (s, none)
  | .enter =>
    if (scriptText.length : Int) ≤ s.scriptIndex then
      (s, some s.displayText)
    else (s, none)
  | .printable _ =>
    if s.scriptIndex < (scriptText.length : Int) then
      -- JS: setDisplayText(prev => prev + scriptText[scriptIndex]);
      -- the guard keeps the index in range whenever it is non-negative,
      -- so the getD default is never read on reachable states.
      (⟨s.displayText ++ [scriptText.getD s.scriptIndex.toNat ' '],
        s.scriptIndex + 1⟩, none)
    else (s, none)
  | .other => (s, none)

end App1

namespace App2

/-- The character class of the shell 2 regex `/^[a-zA-Z0-9\s.,!?;:'"()-]$/`:
ASCII letters and digits, JavaScript whitespace, and the listed punctuation
(codepoints 39 and 34 are the apostrophe and the double quote). -/
def isAllowedChar (c : Char) : Bool :=
  (97 ≤ c.val && c.val ≤ 122) || (65 ≤ c.val && c.val ≤ 90) ||
  (48 ≤ c.val && c.val ≤ 57) ||
  -- \s : tab, line feed, vertical tab, form feed, carriage return, space,
  -- no-break space, ogham space mark, the U+2000..U+200A range, line and
  -- paragraph separators, narrow no-break space, math space, ideographic
  -- space, byte order mark.
  (9 ≤ c.val && c.val ≤ 13) || c.val = 32 || c.val = 160 || c.val = 5760 ||
  (8192 ≤ c.val && c.val ≤ 8202) || c.val = 8232 || c.val = 8233 ||
  c.val = 8239 || c.val = 8287 || c.val = 12288 || c.val = 65279 ||
  c.val = 46 || c.val = 44 || c.val = 33 || c.val = 63 || c.val = 59 ||
  c.val = 58 || c.val = 39 || c.val = 34 || c.val = 40 || c.val = 41 ||
  c.val = 45

/-- The `useForcedTyping` handler of shell 2 (App.jsx lines 749-770).  The
source uses three independent if statements, but their conditions are
mutually exclusive for any single key event, so they are rendered as a
match.  A key of length one advances only when it matches the character
class; Backspace is guarded by `displayText.length > 0` and clamps the
index with `Math.max(0, prev - 1)`; Enter at or past the end emits the
display text and resets the state. -/
def handleKeyDown (scriptText : List Char) (s : FTState) (k : Key) :
    FTState × Option (List Char) :=
  match k with
  | .printable c =>
    if isAllowedChar c ∧ s.scriptIndex < (scriptText.length : Int) then
      (⟨s.displayText ++ [scriptText.getD s.scriptIndex.toNat ' '],
        s.scriptIndex + 1⟩, none)
    else (s, none)
  | .backspace =>
    if 0 < (s.displayText.length : Int) then
      (⟨s.displayText.dropLast, max 0 (s.scriptIndex - 1)⟩, none)
    else (s, none)
  | .enter =>
    if (scriptText.length : Int) ≤ s.scriptIndex then
      (⟨[], 0⟩, some s.displayText)
    else (s, none)
  | .other => (s, none)

end App2

namespace App3

/-- The index component of `LiveModeView.handleKeyDown` in shell 3
(App.jsx lines 1946-1999).  The handler first returns when `forcedText` is
empty (falsy).  Backspace decrements the guarded index; a key of length one
(or the space key, tested redundantly) increments it below the end; the
Enter branch performs the send path, which touches the transcript and the
input value but never `forcedTextIndex`, so for this component Enter and
control keys are identities.  The displayed value always mirrors
`forcedText.substring(0, forcedTextIndex)`. -/
def lmStepIdx (forcedText : List Char) (i : Int) (k : Key) : Int :=
  if forcedText = [] then i
  else
    match k with
    | .backspace => if 0 < i then i - 1 else i
    | .printable _ => if i < (forcedText.length : Int) then i + 1 else i
    | .enter => i
    | .other => i

end App3

namespace P0

/-- State of the part_000 fixed-text keyboard: the shown text, the current
index into the forced text, and the finished flag. -/
structure P0State where
  displayText : List Char
  currentIndex : Int
  isFinished : Bool
deriving Repr, DecidableEq

/-- Initial part_000 state. -/
def p0Init : P0State := ⟨[], 0, false⟩

/-- part_000 `handleKeyPress` (lines 76-82): every letter and the space key
call this one handler; below the end it appends the next forced character
and increments. -/
def handleKeyPress (forcedText : List Char) (s : P0State) : P0State :=
  if s.currentIndex < (forcedText.length : Int) then
    ⟨s.displayText ++ [forcedText.getD s.currentIndex.toNat ' '],
      s.currentIndex + 1, s.isFinished⟩
  else s

/-- part_000 `handleBackspace` (lines 84-89). -/
def handleBackspace (s : P0State) : P0State :=
  if 0 < s.currentIndex then
    ⟨s.displayText.dropLast, s.currentIndex - 1, s.isFinished⟩
  else s

/-- part_000 `handleEnter` (lines 91-95): only at exactly the full length
the finished flag is set. -/
def handleEnter (forcedText : List Char) (s : P0State) : P0State :=
  if s.currentIndex = (forcedText.length : Int) then
    ⟨s.displayText, s.currentIndex, true⟩
  else s

end P0

namespace P1

/-- The `ForcedTypingInput.handleKeyDown` of part_001 (lines 88-108).
Backspace: guarded decrement, value set by substring.  Enter: exactly at
the full length it calls `onComplete(textToType)` (the target itself, not
the display text) and resets both pieces of state.  A key of length one:
below the end, increment and set the value to the prefix. -/
def handleKeyDown (textToType : List Char) (s : FTState) (k : Key) :
    FTState × Option (List Char) :=
  match k with
  | .backspace =>
    if 0 < s.scriptIndex then
      (⟨textToType.take (s.scriptIndex - 1).toNat, s.scriptIndex - 1⟩, none)
    else (s, none)
  | .enter =>
    if s.scriptIndex = (textToType.length : Int) then
      (⟨[], 0⟩, some textToType)
    else (s, none)
  | .printable _ =>
    if s.scriptIndex < (textToType.length : Int) then
      (⟨textToType.take (s.scriptIndex + 1).toNat, s.scriptIndex + 1⟩, none)
    else (s, none)
  | .other => (s, none)

end P1

namespace App1

/-- A per-message delay setting of shell 1: the string literal "natural" or
a number of seconds. -/
inductive DelayVal where
  | natural
  | num (q : Rat)
deriving Repr, DecidableEq

/-- A scripted message of shell 1 (`ScriptEditor.addMessage` shape):
`participantId` equal to "you" marks the actor line. -/
structure AMsg where
  id : Nat
  participantId : String
  text : List Char
  startDelay : DelayVal
  typingDelay : DelayVal
deriving Repr, DecidableEq

/-- `LiveChat.processNextMessage` line 635:
`(startDelay === "natural" ? (text.length / 15) * 1000 : startDelay * 1000) || 1000`.
The `|| 1000` default turns a zero product into 1000. -/
def startDelayMs (d : DelayVal) (textLen : Nat) : Rat :=
  let v : Rat :=
    match d with
    | .natural => ((textLen : Rat) / 15) * 1000
    | .num q => q * 1000
  if v = 0 then 1000 else v

/-- `LiveChat.processNextMessage` lines 637-640:
natural mode gives `Math.max(30, 120 - text.length)`, otherwise
`typingDelay * 50 || 50`. -/
def typingSpeedMs (d : DelayVal) (textLen : Nat) : Rat :=
  match d with
  | .natural => max 30 (120 - (textLen : Rat))
  | .num q => if q * 50 = 0 then 50 else q * 50

/-- The two nested timeouts of `processNextMessage`: the outer one starts
the typing indicator, the inner one delivers the message. -/
inductive ChatAct where
  | typingPhase (m : AMsg)
  | deliverPhase (m : AMsg)
deriving Repr, DecidableEq

/-- A scheduled timeout of shell 1, at an absolute virtual time. -/
structure ChatTimer where
  fireAt : Rat
  act : ChatAct
deriving Repr, DecidableEq

/-- Playback events observable from the `LiveChat` session. -/
inductive AEvent where
  | typingStarted (t : Rat)
  | delivered (t : Rat) (id : Nat) (text : List Char)
deriving Repr, DecidableEq

/-- State of one `LiveChat` session.  `ftInput` is the hook state of the
conditionally rendered `ForcedTypingInput` (line 682): `none` while the
component is unmounted.  `pending` are the outstanding timeouts. -/
structure ChatState where
  displayedMessages : List AMsg
  scriptIndex : Nat
  isTyping : Bool
  ftInput : Option FTState
  pending : List ChatTimer
  now : Rat
deriving Repr, DecidableEq

/-- `activeMessage?.participantId === "you"` (line 625): out of range the
optional chain yields undefined, which is not "you". -/
def isActorTurn (cfg : List AMsg) (s : ChatState) : Bool :=
  match cfg.get? s.scriptIndex with
  | some m => m.participantId == "you"
  | none => false

/-- `processNextMessage` (lines 631-653), run by the effect on every script
index change: it returns immediately when the script is exhausted or when
the line belongs to the actor, otherwise it schedules the typing phase
after the start delay. -/
def processNextMessage (cfg : List AMsg) (s : ChatState) : ChatState :=
  if cfg.length ≤ s.scriptIndex ∨ isActorTurn cfg s = true then s
  else
    match cfg.get? s.scriptIndex with
    | none => s
    | some m =>
      { s with pending :=
          s.pending ++ [⟨s.now + startDelayMs m.startDelay m.text.length,
            .typingPhase m⟩] }

/-- React reconciliation of `{isActorTurn && <ForcedTypingInput/>}`
(line 682): while the actor turn persists across renders the element keeps
its position and type, so the hook state is preserved; when the condition
turns false the component unmounts and its state is destroyed; a later
mount starts from the useState initialisers. -/
def renderLiveChat (cfg : List AMsg) (s : ChatState) : ChatState :=
  if isActorTurn cfg s = true then
    { s with ftInput := some (s.ftInput.getD ftFresh) }
  else { s with ftInput := none }

/-- One commit: state update, render, effects. -/
def settle (cfg : List AMsg) (s : ChatState) : ChatState :=
  renderLiveChat cfg (processNextMessage cfg s)

/-- Mounting `LiveChat`. -/
def liveChatMount (cfg : List AMsg) : ChatState :=
  settle cfg ⟨[], 0, false, none, [], 0⟩

/-- Inputs driving one session: the event loop firing the next due timeout,
or a key event reaching the mounted forced input. -/
inductive ChatInput where
  | tick
  | key (k : Key)

/-- Fire the next pending timeout (this session never has more than one
outstanding, since the two phases of a line are chained and lines are
strictly sequential). -/
def chatTick (cfg : List AMsg) (s : ChatState) : ChatState × List AEvent :=
  match s.pending with
  | [] => (s, [])
  | tm :: rest =>
    match tm.act with
    | .typingPhase m =>
      ({ s with
          isTyping := true
          now := tm.fireAt
          pending := rest ++
            [⟨tm.fireAt + (m.text.length : Rat) *
                typingSpeedMs m.typingDelay m.text.length,
              .deliverPhase m⟩] },
       [.typingStarted tm.fireAt])
    | .deliverPhase m =>
      (settle cfg
        { s with
            isTyping := false
            now := tm.fireAt
            pending := rest
            displayedMessages := s.displayedMessages ++ [m]
            scriptIndex := s.scriptIndex + 1 },
       [.delivered tm.fireAt m.id m.text])

/-- A key event: it reaches `useForcedTyping.handleKeyDown` only while the
forced input is mounted; an emitted completion runs `handleActorSend`
(lines 657-661), which appends the active message with the completed text
and advances the script index. -/
def chatKey (cfg : List AMsg) (s : ChatState) (k : Key) :
    ChatState × List AEvent :=
  match s.ftInput with
  | none => (s, [])
  | some fs =>
    match cfg.get? s.scriptIndex with
    | none => (s, [])
    | some m =>
      match App1.handleKeyDown m.text fs k with
      | (fs1, none) => (renderLiveChat cfg { s with ftInput := some fs1 }, [])
      | (fs1, some txt) =>
        (settle cfg
          { s with
              ftInput := some fs1
              displayedMessages :=
                s.displayedMessages ++ [{ m with text := txt }]
              scriptIndex := s.scriptIndex + 1 },
         [.delivered s.now m.id txt])

/-- Drive a session over a list of inputs, collecting events. -/
def chatRun (cfg : List AMsg) : ChatState → List ChatInput →
    ChatState × List AEvent
  | s, [] => (s, [])
  | s, i :: is =>
    let (s1, e1) :=
      match i with
      | .tick => chatTick cfg s
      | .key k => chatKey cfg s k
    match chatRun cfg s1 is with
    | (s2, e2) => (s2, e1 ++ e2)

end App1

namespace P1

/-- A scripted message of part_001 (`SetupScreen.addMessage` shape): sender
"me" marks the actor line; `delay` is the per-message seconds value used in
manual timing mode. -/
structure PMsg where
  id : Nat
  sender : String
  text : List Char
  delay : Rat
deriving Repr, DecidableEq

/-- `settings.timingMode` of part_001: "natural" or "manual". -/
inductive PTimingMode where
  | natural
  | manual
deriving Repr, DecidableEq

/-- The part of the part_001 settings the live scheduler reads
(`writingMode` and the layout options only affect rendering). -/
structure PSettings where
  timingMode : PTimingMode
  initialDelay : Rat
deriving Repr, DecidableEq

/-- What a part_001 timeout does when it fires: show the typing indicator,
or deliver a message (which also hides the indicator). -/
inductive PAct where
  | typingOn
  | deliver (m : PMsg)
deriving Repr, DecidableEq

/-- A timeout tracked in `timeouts.current`, at an absolute virtual time. -/
structure PTimer where
  fireAt : Rat
  act : PAct
deriving Repr, DecidableEq

/-- Observable part_001 playback events. -/
inductive PEvent where
  | typingStarted (t : Rat)
  | delivered (t : Rat) (id : Nat) (text : List Char)
deriving Repr, DecidableEq

/-- The timer-building loop of the `LiveScreen` effect (lines 522-544),
walking `fullScript` with a running `cumulativeDelay` and a stream `rho` of
`Math.random()` draws (consumed in source order: the natural-mode message
delay first, then the typing duration of a contact message).  For every
message - including actor ("me") messages - a delivery timeout is pushed;
contact messages additionally get a typing timeout and a simulated typing
duration of `1000 + random() * 1000`.  The per-message `messageDelay`
(length-scaled in natural mode, `delay * 1000` in manual mode) is added to
the cumulative delay only after the delivery timeout is scheduled. -/
def buildTimersGo (st : PSettings) (rho : Nat → Rat) :
    List PMsg → Rat → Nat → List PTimer
  | [], _, _ => []
  | m :: rest, cum, j =>
    let messageDelay : Rat :=
      match st.timingMode with
      | .natural => (m.text.length : Rat) * 50 + rho j * 500
      | .manual => m.delay * 1000
    let j1 : Nat :=
      match st.timingMode with
      | .natural => j + 1
      | .manual => j
    if m.sender = "me" then
      ⟨cum, .deliver m⟩ :: buildTimersGo st rho rest (cum + messageDelay) j1
    else
      ⟨cum, .typingOn⟩ ::
        ⟨cum + (1000 + rho j1 * 1000), .deliver m⟩ ::
          buildTimersGo st rho rest
            (cum + (1000 + rho j1 * 1000) + messageDelay) (j1 + 1)

/-- All timeouts scheduled by one run of the effect, started at absolute
time `t0` with `cumulativeDelay = settings.initialDelay * 1000`. -/
def buildTimers (t0 : Rat) (conv : List PMsg) (st : PSettings)
    (rho : Nat → Rat) : List PTimer :=
  buildTimersGo st rho conv (t0 + st.initialDelay * 1000) 0

/-- State of one `LiveScreen` session: the delivered transcript, the typing
indicator, the actor-script cursor, the outstanding tracked timeouts, and
the virtual clock. -/
structure PState where
  messages : List PMsg
  isTyping : Bool
  currentScriptIndex : Nat
  pending : List PTimer
  now : Rat
deriving Repr, DecidableEq

/-- Mounting `LiveScreen` at virtual time 0: the effect resets the view
state and schedules the whole script. -/
def pMount (conv : List PMsg) (st : PSettings) (rho : Nat → Rat) : PState :=
  ⟨[], false, 0, buildTimers 0 conv st rho, 0⟩

/-- A re-run of the effect (its dependencies are `[conversation, settings]`,
so any edit of either re-runs it): first every tracked timeout is cleared,
then the transcript, indicator and cursor are reset and the new script is
scheduled from the current moment. -/
def pEffectRun (conv : List PMsg) (st : PSettings) (rho : Nat → Rat)
    (s : PState) : PState :=
  ⟨[], false, 0, buildTimers s.now conv st rho, s.now⟩

/-- The unmount cleanup (lines 546-548): `clearTimeout` on every tracked
handle, so nothing remains pending. -/
def pExit (s : PState) : PState :=
  { s with pending := [] }

/-- Firing one timeout: the typing timeout shows the indicator; the message
timeout hides it and appends the message to the transcript. -/
def pFire (s : PState) (tm : PTimer) : PState × PEvent :=
  match tm.act with
  | .typingOn => ({ s with isTyping := true }, .typingStarted tm.fireAt)
  | .deliver m =>
    ({ s with
        isTyping := false
        messages := s.messages ++ [m] },
     .delivered tm.fireAt m.id m.text)

/-- Fire a list of due timeouts in order. -/
def pFireAll : PState → List PTimer → PState × List PEvent
  | s, [] => (s, [])
  | s, tm :: rest =>
    let (s1, e) := pFire s tm
    match pFireAll s1 rest with
    | (s2, es) => (s2, e :: es)

/-- Advance virtual time to `t`: every pending timeout due at or before `t`
fires, in scheduling order (the schedule is built with non-decreasing fire
times for non-negative delays, so scheduling order is firing order). -/
def pAdvanceTo (t : Rat) (s : PState) : PState × List PEvent :=
  pFireAll
    { s with
        pending := s.pending.filter (fun tm => !(decide (tm.fireAt ≤ t)))
        now := if s.now ≤ t then t else s.now }
    (s.pending.filter (fun tm => decide (tm.fireAt ≤ t)))

/-- The search of `handleActorSend` (line 552):
`conversation.find((msg, index) => msg.sender === "me" && index >= csi)`,
returning the element together with its position (for the found element,
`conversation.indexOf(nextMessage)` is exactly this position, since find
returns the array element itself and indexOf compares references). -/
def findNextMe : List PMsg → Nat → Nat → Option (Nat × PMsg)
  | [], _, _ => none
  | m :: rest, i, csi =>
    if m.sender = "me" ∧ csi ≤ i then some (i, m)
    else findNextMe rest (i + 1) csi

/-- `LiveScreen.handleActorSend` (lines 551-560): look for the earliest
scripted "me" message at or after the cursor; if none remains, return; if
the submitted text equals its text, append it to the transcript and move
the cursor just past it; otherwise do nothing. -/
def handleActorSend (conv : List PMsg) (s : PState) (txt : List Char) :
    PState :=
  match findNextMe conv 0 s.currentScriptIndex with
  | none => s
  | some (i, m) =>
    if txt = m.text then
      { s with
          messages := s.messages ++ [m]
          currentScriptIndex := i + 1 }
    else s

/-- One live session together with its current props. -/
structure PSession where
  conv : List PMsg
  st : PSettings
  state : PState

/-- Session-level inputs: advancing virtual time, a completed forced-typing
submission, or an edit of the authoring data (which re-runs the effect). -/
inductive PInput where
  | advance (t : Rat)
  | actorSend (txt : List Char)
  | edit (conv : List PMsg) (st : PSettings) (rho : Nat → Rat)

/-- One driver step, returning the emitted events (an actor submission that
is accepted appends to the transcript, which is its delivery). -/
def pDriveStep (sess : PSession) : PInput → PSession × List PEvent
  | .advance t =>
    match pAdvanceTo t sess.state with
    | (s1, evs) => ({ sess with state := s1 }, evs)
  | .actorSend txt =>
    let s1 := handleActorSend sess.conv sess.state txt
    ({ sess with state := s1 },
     (s1.messages.drop sess.state.messages.length).map
       (fun m => PEvent.delivered sess.state.now m.id m.text))
  | .edit conv1 st1 rho1 =>
    ({ conv := conv1, st := st1, state := pEffectRun conv1 st1 rho1 sess.state },
     [])

/-- Drive a session over a list of inputs, collecting all events. -/
def pDrive : PSession → List PInput → PSession × List PEvent
  | sess, [] => (sess, [])
  | sess, i :: is =>
    match pDriveStep sess i with
    | (sess1, e1) =>
      match pDrive sess1 is with
      | (sess2, e2) => (sess2, e1 ++ e2)

end P1

namespace App2

/-- A scripted message of shell 2 (`ScriptBuilder.addMessage` shape):
messages are attributed by sender name; the first participant is the
performing actor. -/
structure LCMsg where
  id : Nat
  sender : String
  text : List Char
  delay : Rat
deriving Repr, DecidableEq

/-- The slice of a shell 2 project the live mode reads: the script and
`participants[0]?.name` (absent when the roster is empty). -/
structure LCMProject where
  messages : List LCMsg
  actorName : Option String
deriving Repr, DecidableEq

/-- `message.sender === project.participants[0]?.name`; against an absent
name the comparison is false. -/
def lcmIsUser (p : LCMProject) (m : LCMsg) : Bool :=
  match p.actorName with
  | some n => m.sender == n
  | none => false

/-- What a `LiveChatMode` timeout does when it fires: deliver the message
(after its configured delay), or advance the script index (the fixed 500 ms
pause after each delivery). -/
inductive LCMAct where
  | deliver (m : LCMsg)
  | advanceIdx
deriving Repr, DecidableEq

/-- A `LiveChatMode` timeout; the component never stores these handles, so
nothing ever clears them. -/
structure LCMTimer where
  fireAt : Rat
  act : LCMAct
deriving Repr, DecidableEq

/-- State of one `LiveChatMode` session.  `ft` is the state of the single
`useForcedTyping` hook (called unconditionally at the top of the
component, so it lives for the whole session and is reset explicitly). -/
structure LCMState where
  currentMessageIndex : Nat
  chatMessages : List LCMsg
  isTyping : Bool
  typingSender : String
  waitingForInput : Bool
  ft : FTState
  pending : List LCMTimer
  now : Rat
deriving Repr, DecidableEq

/-- The effect of lines 1226-1252, run on every index change: below the end
of the script, a user message turns on waiting mode and resets the hook,
while a contact message shows the typing indicator and schedules delivery
after `(message.delay || 2) * 1000` (the falsy default turns 0 into 2). -/
def lcmEffect (p : LCMProject) (s : LCMState) : LCMState :=
  match p.messages.get? s.currentMessageIndex with
  | none => s
  | some m =>
    if lcmIsUser p m then
      { s with
          waitingForInput := true
          ft := ftFresh }
    else
      { s with
          isTyping := true
          typingSender := m.sender
          pending := s.pending ++
            [⟨s.now + (if m.delay = 0 then 2 else m.delay) * 1000,
              .deliver m⟩] }

/-- Mounting `LiveChatMode`. -/
def lcmMount (p : LCMProject) : LCMState :=
  lcmEffect p ⟨0, [], false, "", false, ftFresh, [], 0⟩

/-- Session inputs: the event loop firing the next timeout, a key event on
the forced input, and the Restart Scene button (rendered only on the
completion screen, so it acts only when the index has passed the end). -/
inductive LCMInput where
  | tick
  | key (k : Key)
  | restart

/-- One step of a `LiveChatMode` session.  Firing a delivery timeout hides
the indicator, appends the message and schedules the 500 ms advance; firing
an advance timeout moves the index and re-runs the effect.  A key event
acts only while the input is rendered (`waitingForInput` and not complete);
an emitted completion appends the current message with the completed text
and schedules the 500 ms advance.  `handleRestart` (lines 1254-1260)
resets the view state and the hook and re-runs the effect, but clears no
timeout. -/
def lcmStep (p : LCMProject) (s : LCMState) : LCMInput → LCMState
  | .tick =>
    match s.pending with
    | [] => s
    | tm :: rest =>
      match tm.act with
      | .deliver m =>
        { s with
            now := tm.fireAt
            isTyping := false
            chatMessages := s.chatMessages ++ [m]
            pending := rest ++ [⟨tm.fireAt + 500, .advanceIdx⟩] }
      | .advanceIdx =>
        lcmEffect p
          { s with
              now := tm.fireAt
              pending := rest
              currentMessageIndex := s.currentMessageIndex + 1 }
  | .key k =>
    if s.waitingForInput = true ∧ s.currentMessageIndex < p.messages.length
    then
      match p.messages.get? s.currentMessageIndex with
      | none => s
      | some m =>
        match App2.handleKeyDown m.text s.ft k with
        | (ft1, none) => { s with ft := ft1 }
        | (ft1, some txt) =>
          { s with
              ft := ft1
              chatMessages := s.chatMessages ++ [{ m with text := txt }]
              waitingForInput := false
              pending := s.pending ++ [⟨s.now + 500, .advanceIdx⟩] }
    else s
  | .restart =>
    if p.messages.length ≤ s.currentMessageIndex then
      lcmEffect p
        { s with
            currentMessageIndex := 0
            chatMessages := []
            isTyping := false
            waitingForInput := false
            ft := ftFresh }
    else s

/-- Drive a session over a list of inputs. -/
def lcmDrive (p : LCMProject) (s : LCMState) (ins : List LCMInput) :
    LCMState :=
  ins.foldl (lcmStep p) s

end App2
theorem runKeys_append {σ ε : Type} (step : σ → Key → σ × Option ε)
    (s : σ) (ks1 ks2 : List Key) :
    runKeys step s (ks1 ++ ks2) =
      ((runKeys step (runKeys step s ks1).1 ks2).1,
       (runKeys step s ks1).2 ++ (runKeys step (runKeys step s ks1).1 ks2).2) := by
  induction ks1 generalizing s with
  | nil => simp [runKeys]
  | cons k ks ih => simp [runKeys, ih, List.append_assoc]

theorem App1.ft_run_printables (text : List Char) (cs : List Char) (n : Nat)
    (h : n + cs.length ≤ text.length) :
    runKeys (App1.handleKeyDown text) ⟨text.take n, (n : Int)⟩
        (cs.map Key.printable) =
      (⟨text.take (n + cs.length), ((n + cs.length : Nat) : Int)⟩, []) := by
  induction cs generalizing n with
  | nil => simp [runKeys]
  | cons c cs ih =>
    have hn : n < text.length := by
      rw [List.length_cons] at h; omega
    have hstep : App1.handleKeyDown text ⟨text.take n, (n : Int)⟩ (.printable c) =
        (⟨text.take (n + 1), ((n + 1 : Nat) : Int)⟩, none) := by
      simp only [App1.handleKeyDown]
      rw [if_pos (by exact_mod_cast hn)]
      have hget : text.getD ((n : Int)).toNat ' ' = text[n] := by
        simp [List.getD_eq_getElem?_getD, List.getElem?_eq_getElem hn]
      have h1 : text.take n ++ [text[n]] = text.take (n + 1) := by
        rw [← List.concat_eq_append]
        exact List.take_concat_get text n hn
      have h2 : ((n : Int)) + 1 = ((n + 1 : Nat) : Int) := by push_cast; ring
      rw [hget, h1, h2]
    have e : n + (c :: cs).length = (n + 1) + cs.length := by
      rw [List.length_cons]; omega
    have h2 : (n + 1) + cs.length ≤ text.length := by
      rw [List.length_cons] at h; omega
    simp only [List.map_cons, runKeys, hstep, e, ih (n + 1) h2]
    simp
theorem P1.p1_run_printables (text : List Char) (cs : List Char) (n : Nat)
    (h : n + cs.length ≤ text.length) :
    runKeys (P1.handleKeyDown text) ⟨text.take n, (n : Int)⟩
        (cs.map Key.printable) =
      (⟨text.take (n + cs.length), ((n + cs.length : Nat) : Int)⟩, []) := by
  induction cs generalizing n with
  | nil => simp [runKeys]
  | cons c cs ih =>
    have hn : n < text.length := by
      rw [List.length_cons] at h; omega
    have hstep : P1.handleKeyDown text ⟨text.take n, (n : Int)⟩ (.printable c) =
        (⟨text.take (n + 1), ((n + 1 : Nat) : Int)⟩, none) := by
      simp only [P1.handleKeyDown]
      rw [if_pos (by exact_mod_cast hn)]
      have h1 : ((n : Int) + 1).toNat = n + 1 := by omega
      have h2 : ((n : Int)) + 1 = ((n + 1 : Nat) : Int) := by push_cast; ring
      rw [h1, h2]
    have e : n + (c :: cs).length = (n + 1) + cs.length := by
      rw [List.length_cons]; omega
    have h2 : (n + 1) + cs.length ≤ text.length := by
      rw [List.length_cons] at h; omega
    simp only [List.map_cons, runKeys, hstep, e, ih (n + 1) h2]
    simp

theorem P0.press_iterate (text : List Char) (n : Nat) (h : n ≤ text.length) :
    (P0.handleKeyPress text)^[n] P0.p0Init =
      ⟨text.take n, (n : Int), false⟩ := by
  induction n with
  | zero => simp [P0.p0Init]
  | succ n ih =>
    have hn : n < text.length := by omega
    rw [Function.iterate_succ_apply', ih (by omega)]
    simp only [P0.handleKeyPress]
    rw [if_pos (by exact_mod_cast hn)]
    have hget : text.getD ((n : Int)).toNat ' ' = text[n] := by
      simp [List.getD_eq_getElem?_getD, List.getElem?_eq_getElem hn]
    have h1 : text.take n ++ [text[n]] = text.take (n + 1) := by
      rw [← List.concat_eq_append]
      exact List.take_concat_get text n hn
    have h2 : ((n : Int)) + 1 = ((n + 1 : Nat) : Int) := by push_cast; ring
    rw [hget, h1, h2]

/-- Claim C2: for an actor line with target text of length L, a sequence of
exactly L printable-key signals (whatever the pressed keys are) followed by
one submit signal makes the handler emit the target text verbatim.  This
holds for the shell 1 hook (which emits its display text, by then the full
target), for the part_001 input (which emits the target itself), and for
part_000 (whose display equals the forced text and whose finished flag is
set by Enter). -/
theorem forced_text_fidelity (text cs : List Char)
    (h : cs.length = text.length) :
    (runKeys (App1.handleKeyDown text) ftFresh
        (cs.map Key.printable ++ [Key.enter])).2 = [text]
    ∧ (runKeys (P1.handleKeyDown text) ftFresh
        (cs.map Key.printable ++ [Key.enter])).2 = [text]
    ∧ ((P0.handleKeyPress text)^[text.length] P0.p0Init).displayText = text
    ∧ (P0.handleEnter text
        ((P0.handleKeyPress text)^[text.length] P0.p0Init)).isFinished
        = true := by
  have hApp1 : runKeys (App1.handleKeyDown text) ftFresh
      (cs.map Key.printable) = (⟨text, (text.length : Int)⟩, []) := by
    have := App1.ft_run_printables text cs 0 (by omega)
    simpa [ftFresh, h] using this
  have hP1 : runKeys (P1.handleKeyDown text) ftFresh
      (cs.map Key.printable) = (⟨text, (text.length : Int)⟩, []) := by
    have := P1.p1_run_printables text cs 0 (by omega)
    simpa [ftFresh, h] using this
  have hIter := P0.press_iterate text text.length (le_refl _)
  refine ⟨?_, ?_, ?_, ?_⟩
  · rw [runKeys_append, hApp1]
    simp [runKeys, App1.handleKeyDown]
  · rw [runKeys_append, hP1]
    simp [runKeys, P1.handleKeyDown]
  · rw [hIter]; simp
  · rw [hIter]
    simp [P0.handleEnter]

/-- Witness for C2 at the target "ok" and the physical keys "xy". -/
theorem forced_text_fidelity_witness :
    (runKeys (App1.handleKeyDown ['o', 'k']) ftFresh
        (['x', 'y'].map Key.printable ++ [Key.enter])).2 = [['o', 'k']]
    ∧ (runKeys (P1.handleKeyDown ['o', 'k']) ftFresh
        (['x', 'y'].map Key.printable ++ [Key.enter])).2 = [['o', 'k']]
    ∧ ((P0.handleKeyPress ['o', 'k'])^[2] P0.p0Init).displayText = ['o', 'k']
    ∧ (P0.handleEnter ['o', 'k']
        ((P0.handleKeyPress ['o', 'k'])^[2] P0.p0Init)).isFinished = true :=
  forced_text_fidelity ['o', 'k'] ['x', 'y'] (by decide)
/-- Counterexample to claim C6: in the shell 2 regex variant the key "@"
is a single non-control key, yet with target "ab" and a fresh state it does
not increment the index at all (it does not match the character class), so
the pressed identity does matter there. -/
theorem printable_increment_counterexample :
    ¬ ((App2.handleKeyDown ['a', 'b'] ftFresh
          (Key.printable '@')).1.scriptIndex = ftFresh.scriptIndex + 1) := by
  decide

/-- Claim C6 as amended: in the shell 1 hook and in the shell 3 handler a
printable signal below full length increments the revealed length by
exactly one, is a no-op at full length, and the identity of the pressed key
never affects the result; in the shell 2 regex variant this holds only for
keys inside the class `[a-zA-Z0-9\s.,!?;:- and quotes]`, while every other
printable key is ignored entirely (there key identity decides whether the
signal counts, though never which character is revealed). -/
theorem printable_signal_semantics :
    (∀ (text : List Char) (s : FTState) (c : Char),
      s.scriptIndex < (text.length : Int) →
      (App1.handleKeyDown text s (.printable c)).1.scriptIndex
        = s.scriptIndex + 1)
    ∧ (∀ (text : List Char) (s : FTState) (c : Char),
      (text.length : Int) ≤ s.scriptIndex →
      App1.handleKeyDown text s (.printable c) = (s, none))
    ∧ (∀ (text : List Char) (s : FTState) (c c1 : Char),
      App1.handleKeyDown text s (.printable c)
        = App1.handleKeyDown text s (.printable c1))
    ∧ (∀ (text : List Char) (i : Int) (c : Char), 0 ≤ i →
      i < (text.length : Int) →
      App3.lmStepIdx text i (.printable c) = i + 1)
    ∧ (∀ (text : List Char) (i : Int) (c : Char),
      (text.length : Int) ≤ i →
      App3.lmStepIdx text i (.printable c) = i)
    ∧ (∀ (text : List Char) (i : Int) (c c1 : Char),
      App3.lmStepIdx text i (.printable c) = App3.lmStepIdx text i (.printable c1))
    ∧ (∀ (text : List Char) (s : FTState) (c : Char),
      App2.isAllowedChar c = true →
      s.scriptIndex < (text.length : Int) →
      (App2.handleKeyDown text s (.printable c)).1.scriptIndex
        = s.scriptIndex + 1)
    ∧ (∀ (text : List Char) (s : FTState) (c : Char),
      App2.isAllowedChar c = false →
      App2.handleKeyDown text s (.printable c) = (s, none))
    ∧ (∀ (text : List Char) (s : FTState) (c : Char),
      (text.length : Int) ≤ s.scriptIndex →
      App2.handleKeyDown text s (.printable c) = (s, none)) := by
  refine ⟨?_, ?_, ?_, ?_, ?_, ?_, ?_, ?_, ?_⟩
  · intro text s c hlt
    simp [App1.handleKeyDown, if_pos hlt]
  · intro text s c hge
    simp [App1.handleKeyDown, if_neg (not_lt.mpr hge)]
  · intro text s c c1
    rfl
  · intro text i c h0 hlt
    have hne : text ≠ [] := by
      intro he; rw [he] at hlt; simp at hlt; omega
    simp [App3.lmStepIdx, hne, if_pos hlt]
  · intro text i c hge
    by_cases hne : text = []
    · simp [App3.lmStepIdx, hne]
    · simp [App3.lmStepIdx, hne, if_neg (not_lt.mpr hge)]
  · intro text i c c1
    rfl
  · intro text s c hc hlt
    simp [App2.handleKeyDown, if_pos (And.intro hc hlt), hc, hlt]
  · intro text s c hc
    simp [App2.handleKeyDown, hc]
  · intro text s c hge
    simp [App2.handleKeyDown, if_neg (not_lt.mpr hge), not_lt.mpr hge]

/-- Witness for the amended C6 at concrete inputs. -/
theorem printable_signal_semantics_witness :
    (App1.handleKeyDown ['a', 'b'] ftFresh (.printable 'x')).1.scriptIndex
      = ftFresh.scriptIndex + 1
    ∧ App1.handleKeyDown ['a', 'b'] ⟨['a', 'b'], 2⟩ (.printable 'x')
      = (⟨['a', 'b'], 2⟩, none)
    ∧ App3.lmStepIdx ['a', 'b'] 0 (.printable 'x') = 0 + 1
    ∧ App3.lmStepIdx ['a', 'b'] 2 (.printable 'x') = 2
    ∧ (App2.handleKeyDown ['a', 'b'] ftFresh (.printable 'x')).1.scriptIndex
      = ftFresh.scriptIndex + 1
    ∧ App2.handleKeyDown ['a', 'b'] ftFresh (.printable '@')
      = (ftFresh, none)
    ∧ App2.handleKeyDown ['a', 'b'] ⟨['a', 'b'], 2⟩ (.printable 'x')
      = (⟨['a', 'b'], 2⟩, none) := by
  have h := printable_signal_semantics
  exact ⟨h.1 ['a', 'b'] ftFresh 'x' (by decide),
    h.2.1 ['a', 'b'] ⟨['a', 'b'], 2⟩ 'x' (by decide),
    h.2.2.2.1 ['a', 'b'] 0 'x' (by decide) (by decide),
    h.2.2.2.2.1 ['a', 'b'] 2 'x' (by decide),
    h.2.2.2.2.2.2.1 ['a', 'b'] ftFresh 'x' (by decide) (by decide),
    h.2.2.2.2.2.2.2.1 ['a', 'b'] ftFresh '@' (by decide),
    h.2.2.2.2.2.2.2.2 ['a', 'b'] ⟨['a', 'b'], 2⟩ 'x' (by decide)⟩
theorem App1.ft_backspace_at_zero (text : List Char) (s : FTState) (n : Nat)
    (h : s.scriptIndex = 0) :
    runKeys (App1.handleKeyDown text) s (List.replicate n Key.backspace)
      = (s, []) := by
  induction n with
  | zero => simp [runKeys]
  | succ n ih =>
    have hstep : App1.handleKeyDown text s Key.backspace = (s, none) := by
      simp [App1.handleKeyDown, h]
    simp [List.replicate_succ, runKeys, hstep, ih]

theorem App2.regex_backspace_at_zero (text : List Char) (s : FTState) (n : Nat)
    (h : s.displayText = []) :
    runKeys (App2.handleKeyDown text) s (List.replicate n Key.backspace)
      = (s, []) := by
  induction n with
  | zero => simp [runKeys]
  | succ n ih =>
    have hstep : App2.handleKeyDown text s Key.backspace = (s, none) := by
      simp [App2.handleKeyDown, h]
    simp [List.replicate_succ, runKeys, hstep, ih]

theorem P0.p0_backspace_at_zero (s : P0.P0State) (n : Nat)
    (h : s.currentIndex = 0) :
    P0.handleBackspace^[n] s = s := by
  induction n with
  | zero => simp
  | succ n ih =>
    rw [Function.iterate_succ_apply, show P0.handleBackspace s = s by
      simp [P0.handleBackspace, h], ih]

/-- Claim C9: an erase signal at revealed length zero leaves the state (in
particular the revealed length and the display text) unchanged, for any
number of repeated erase signals, in all three cited handlers; moreover
every handler keeps the index non-negative (the guards, and in shell 2 the
`Math.max(0, prev - 1)` clamp, are what prevents a negative value). -/
theorem erase_boundary :
    (∀ (text : List Char) (s : FTState) (n : Nat), s.scriptIndex = 0 →
      runKeys (App1.handleKeyDown text) s (List.replicate n Key.backspace)
        = (s, []))
    ∧ (∀ (text : List Char) (s : FTState) (k : Key), 0 ≤ s.scriptIndex →
      0 ≤ (App1.handleKeyDown text s k).1.scriptIndex)
    ∧ (∀ (s : P0.P0State) (n : Nat), s.currentIndex = 0 →
      P0.handleBackspace^[n] s = s)
    ∧ (∀ (text : List Char) (s : P0.P0State), 0 ≤ s.currentIndex →
      0 ≤ (P0.handleKeyPress text s).currentIndex
      ∧ 0 ≤ (P0.handleBackspace s).currentIndex
      ∧ 0 ≤ (P0.handleEnter text s).currentIndex)
    ∧ (∀ (text : List Char) (s : FTState) (n : Nat), s.displayText = [] →
      runKeys (App2.handleKeyDown text) s (List.replicate n Key.backspace)
        = (s, []))
    ∧ (∀ (text : List Char) (s : FTState) (k : Key), 0 ≤ s.scriptIndex →
      0 ≤ (App2.handleKeyDown text s k).1.scriptIndex) := by
  refine ⟨App1.ft_backspace_at_zero, ?_, P0.p0_backspace_at_zero, ?_,
    App2.regex_backspace_at_zero, ?_⟩
  · intro text s k h0
    cases k <;> simp only [App1.handleKeyDown] <;> (try split_ifs) <;>
      (try simp) <;> omega
  · intro text s h0
    refine ⟨?_, ?_, ?_⟩
    · simp only [P0.handleKeyPress]
      split_ifs <;> (try simp) <;> omega
    · simp only [P0.handleBackspace]
      split_ifs <;> (try simp) <;> omega
    · simp only [P0.handleEnter]
      split_ifs <;> (try simp) <;> omega
  · intro text s k h0
    cases k <;> simp only [App2.handleKeyDown] <;> (try split_ifs) <;>
      (try simp) <;> omega

/-- Witness for C9: five erases at zero in each handler, starting from the
fresh state, with target "ab". -/
theorem erase_boundary_witness :
    runKeys (App1.handleKeyDown ['a', 'b']) ftFresh
        (List.replicate 5 Key.backspace) = (ftFresh, [])
    ∧ 0 ≤ (App1.handleKeyDown ['a', 'b'] ftFresh Key.backspace).1.scriptIndex
    ∧ P0.handleBackspace^[5] P0.p0Init = P0.p0Init
    ∧ 0 ≤ (P0.handleBackspace P0.p0Init).currentIndex
    ∧ runKeys (App2.handleKeyDown ['a', 'b']) ftFresh
        (List.replicate 5 Key.backspace) = (ftFresh, []) := by
  have h := erase_boundary
  exact ⟨h.1 ['a', 'b'] ftFresh 5 (by decide),
    h.2.1 ['a', 'b'] ftFresh Key.backspace (by decide),
    h.2.2.1 P0.p0Init 5 (by decide),
    (h.2.2.2.1 ['a', 'b'] P0.p0Init (by decide)).2.1,
    h.2.2.2.2.1 ['a', 'b'] ftFresh 5 (by decide)⟩
theorem P1.findNextMe_eq_none (l : List P1.PMsg) (i0 csi : Nat)
    (h : ∀ j m, l.get? j = some m → csi ≤ i0 + j → m.sender ≠ "me") :
    P1.findNextMe l i0 csi = none := by
  induction l generalizing i0 with
  | nil => rfl
  | cons a rest ih =>
    have hcond : ¬ (a.sender = "me" ∧ csi ≤ i0) := by
      rintro ⟨h1, h2⟩
      exact h 0 a rfl (by omega) h1
    rw [P1.findNextMe, if_neg hcond]
    refine ih (i0 + 1) ?_
    intro j m hj hge
    exact h (j + 1) m hj (by omega)

theorem P1.findNextMe_eq_some (l : List P1.PMsg) (i0 csi k : Nat)
    (m : P1.PMsg) (hk : l.get? k = some m) (hme : m.sender = "me")
    (hge : csi ≤ i0 + k)
    (hmin : ∀ j mj, l.get? j = some mj → csi ≤ i0 + j → j < k →
      mj.sender ≠ "me") :
    P1.findNextMe l i0 csi = some (i0 + k, m) := by
  induction l generalizing i0 k with
  | nil => simp at hk
  | cons a rest ih =>
    cases k with
    | zero =>
      have ha : a = m := by simpa using hk
      rw [P1.findNextMe, if_pos ⟨by rw [ha]; exact hme, by omega⟩, ha]
      simp
    | succ k =>
      have hcond : ¬ (a.sender = "me" ∧ csi ≤ i0) := by
        rintro ⟨h1, h2⟩
        exact hmin 0 a rfl (by omega) (by omega) h1
      rw [P1.findNextMe, if_neg hcond]
      have hrec := ih (i0 + 1) k (by simpa using hk) (by omega)
        (fun j mj hj hge2 hlt => hmin (j + 1) mj hj (by omega) (by omega))
      have he : i0 + (k + 1) = (i0 + 1) + k := by omega
      rw [he]
      exact hrec

/-- Claim C10: in the part_001 live session, a completed actor submission
is appended to the transcript and advances the cursor exactly when the
submitted text equals the text of the earliest scripted "me" message at or
after the cursor (the cursor then moves just past that message); when no
such message remains, or when the text differs, the state is unchanged. -/
theorem actor_send_semantics (conv : List P1.PMsg) (s : P1.PState)
    (txt : List Char) :
    ((∀ j m, conv.get? j = some m → s.currentScriptIndex ≤ j →
        m.sender ≠ "me") →
      P1.handleActorSend conv s txt = s)
    ∧ (∀ i m, conv.get? i = some m → m.sender = "me" →
      s.currentScriptIndex ≤ i →
      (∀ j mj, conv.get? j = some mj → s.currentScriptIndex ≤ j → j < i →
        mj.sender ≠ "me") →
      P1.handleActorSend conv s txt =
        if txt = m.text then
          { s with
              messages := s.messages ++ [m]
              currentScriptIndex := i + 1 }
        else s) := by
  constructor
  · intro h
    have hn : P1.findNextMe conv 0 s.currentScriptIndex = none :=
      P1.findNextMe_eq_none conv 0 s.currentScriptIndex
        (fun j m hj hge => h j m hj (by omega))
    rw [P1.handleActorSend, hn]
  · intro i m hi hme hge hmin
    have hs : P1.findNextMe conv 0 s.currentScriptIndex = some (i, m) := by
      have := P1.findNextMe_eq_some conv 0 s.currentScriptIndex i m hi hme
        (by omega) (fun j mj hj hge2 hlt => hmin j mj hj (by omega) hlt)
      simpa using this
    rw [P1.handleActorSend, hs]

/-- Witness for C10: a one-line script whose only message belongs to the
actor; submitting its exact text appends it and moves the cursor to 1. -/
theorem actor_send_semantics_witness :
    P1.handleActorSend [⟨0, "me", ['h', 'i'], 0⟩] ⟨[], false, 0, [], 0⟩
        ['h', 'i']
      = ⟨[⟨0, "me", ['h', 'i'], 0⟩], false, 1, [], 0⟩ := by
  have h := (actor_send_semantics [⟨0, "me", ['h', 'i'], 0⟩]
      ⟨[], false, 0, [], 0⟩ ['h', 'i']).2 0 ⟨0, "me", ['h', 'i'], 0⟩
      (by rfl) (by rfl) (by decide)
      (fun j mj hj hcsi hlt => absurd hlt (Nat.not_lt_zero j))
  simpa using h
/-- Inductive invariant of a `LiveChatMode` session: at most one timeout is
outstanding, a pending timeout implies the script is not yet complete and
the session is not waiting for actor input, and waiting mode implies no
pending timeout. -/
def App2.LCMGood (p : App2.LCMProject) (s : App2.LCMState) : Prop :=
  (s.pending = []
    ∨ (∃ τ m, s.pending = [⟨τ, App2.LCMAct.deliver m⟩]
        ∧ s.currentMessageIndex < p.messages.length
        ∧ s.waitingForInput = false)
    ∨ (∃ τ, s.pending = [⟨τ, App2.LCMAct.advanceIdx⟩]
        ∧ s.currentMessageIndex < p.messages.length
        ∧ s.waitingForInput = false))
  ∧ (s.waitingForInput = true →
      s.pending = [] ∧ s.currentMessageIndex < p.messages.length)

theorem App2.lcmEffect_good (p : App2.LCMProject) (s : App2.LCMState)
    (hp : s.pending = []) (hw : s.waitingForInput = false) :
    App2.LCMGood p (App2.lcmEffect p s) := by
  unfold App2.lcmEffect
  cases hg : p.messages.get? s.currentMessageIndex with
  | none =>
    exact ⟨Or.inl hp, fun h => absurd h (by simp [hw])⟩
  | some m =>
    have hlt : s.currentMessageIndex < p.messages.length :=
      List.get?_eq_some.mp hg |>.choose
    dsimp only
    by_cases hu : App2.lcmIsUser p m = true
    · rw [if_pos hu]
      exact ⟨Or.inl hp, fun _ => ⟨hp, hlt⟩⟩
    · rw [if_neg hu]
      refine ⟨Or.inr (Or.inl ⟨s.now + (if m.delay = 0 then 2 else m.delay) * 1000,
        m, by simp [hp], hlt, hw⟩), fun h => absurd h (by simp [hw])⟩
theorem App2.lcmStep_good (p : App2.LCMProject) (s : App2.LCMState)
    (inp : App2.LCMInput) (h : App2.LCMGood p s) :
    App2.LCMGood p (App2.lcmStep p s inp) := by
  obtain ⟨hdisj, hwait⟩ := h
  cases inp with
  | tick =>
    rcases hdisj with hp | ⟨τ, m, hp, hlt, hw⟩ | ⟨τ, hp, hlt, hw⟩
    · simp only [App2.lcmStep, hp]
      exact ⟨Or.inl hp, hwait⟩
    · simp only [App2.lcmStep, hp]
      refine ⟨Or.inr (Or.inr ⟨τ + 500, by simp, hlt, hw⟩),
        fun hc => absurd hc (by simp [hw])⟩
    · simp only [App2.lcmStep, hp]
      exact App2.lcmEffect_good p _ (by simp) (by simp [hw])
  | key k =>
    by_cases hcond : s.waitingForInput = true
        ∧ s.currentMessageIndex < p.messages.length
    · obtain ⟨hw, hlt⟩ := hcond
      have hp : s.pending = [] := (hwait hw).1
      simp only [App2.lcmStep, if_pos (And.intro hw hlt)]
      cases hg : p.messages.get? s.currentMessageIndex with
      | none => exact ⟨hdisj, hwait⟩
      | some m =>
        dsimp only
        cases he : App2.handleKeyDown m.text s.ft k with
        | mk ft1 em =>
          cases em with
          | none =>
            refine ⟨?_, ?_⟩
            · rcases hdisj with hp2 | ⟨τ, m2, hp2, hlt2, hw2⟩ |
                ⟨τ, hp2, hlt2, hw2⟩
              · exact Or.inl hp2
              · exact Or.inr (Or.inl ⟨τ, m2, hp2, hlt2, hw2⟩)
              · exact Or.inr (Or.inr ⟨τ, hp2, hlt2, hw2⟩)
            · intro hc
              exact hwait hc
          | some txt =>
            refine ⟨Or.inr (Or.inr ⟨s.now + 500, by simp [hp], hlt, rfl⟩),
              fun hc => by simp at hc⟩
    · simp only [App2.lcmStep, if_neg hcond]
      exact ⟨hdisj, hwait⟩
  | restart =>
    by_cases hc : p.messages.length ≤ s.currentMessageIndex
    · have hp : s.pending = [] := by
        rcases hdisj with hp | ⟨τ, m, hp, hlt, hw⟩ | ⟨τ, hp, hlt, hw⟩
        · exact hp
        · omega
        · omega
      simp only [App2.lcmStep, if_pos hc]
      exact App2.lcmEffect_good p _ (by simp [hp]) (by simp)
    · simp only [App2.lcmStep, if_neg hc]
      exact ⟨hdisj, hwait⟩
theorem App2.lcmMount_good (p : App2.LCMProject) :
    App2.LCMGood p (App2.lcmMount p) :=
  App2.lcmEffect_good p _ rfl rfl

theorem App2.lcmDrive_good (p : App2.LCMProject) (s : App2.LCMState)
    (h : App2.LCMGood p s) (ins : List App2.LCMInput) :
    App2.LCMGood p (App2.lcmDrive p s ins) := by
  induction ins generalizing s with
  | nil => exact h
  | cons i is ih => exact ih _ (App2.lcmStep_good p s i h)

/-- Claim C3: after cancellation nothing pending ever fires.  First leg:
in part_001 the exit cleanup clears every tracked timeout, so advancing
virtual time arbitrarily far past the cancelled session produces zero
events and leaves the transcript and the typing indicator untouched (a
re-run of the effect likewise starts from an empty timeout list, so no
timer of the previous run survives a restart).  Second leg: in shell 2,
`handleRestart` is reachable only from the completion screen, and in every
reachable completed `LiveChatMode` state no timeout is pending, so no
previously scheduled timer can fire after a restart. -/
theorem cancellation_completeness :
    (∀ (s : P1.PState) (t : Rat),
      (P1.pAdvanceTo t (P1.pExit s)).2 = []
      ∧ (P1.pAdvanceTo t (P1.pExit s)).1.messages = s.messages
      ∧ (P1.pAdvanceTo t (P1.pExit s)).1.isTyping = s.isTyping
      ∧ (P1.pAdvanceTo t (P1.pExit s)).1.pending = [])
    ∧ (∀ (p : App2.LCMProject) (ins : List App2.LCMInput),
      p.messages.length ≤
        (App2.lcmDrive p (App2.lcmMount p) ins).currentMessageIndex →
      (App2.lcmDrive p (App2.lcmMount p) ins).pending = []) := by
  constructor
  · intro s t
    refine ⟨?_, ?_, ?_, ?_⟩ <;>
      simp [P1.pAdvanceTo, P1.pExit, P1.pFireAll]
  · intro p ins hc
    have hg := App2.lcmDrive_good p (App2.lcmMount p) (App2.lcmMount_good p) ins
    rcases hg.1 with hp | ⟨τ, m, hp, hlt, hw⟩ | ⟨τ, hp, hlt, hw⟩
    · exact hp
    · omega
    · omega

/-- Witness for C3: a cancelled session with one pending timeout emits
nothing when time passes, and the trivially completed empty project has no
pending timeout when restart becomes available. -/
theorem cancellation_completeness_witness :
    (P1.pAdvanceTo 5000
        (P1.pExit ⟨[], false, 0, [⟨10, P1.PAct.typingOn⟩], 0⟩)).2 = []
    ∧ (App2.lcmDrive ⟨[], none⟩ (App2.lcmMount ⟨[], none⟩) []).pending
        = [] := by
  have h := cancellation_completeness
  exact ⟨(h.1 ⟨[], false, 0, [⟨10, P1.PAct.typingOn⟩], 0⟩ 5000).1,
    h.2 ⟨[], none⟩ [] (by decide)⟩
/-- A one-line script consisting only of the actor line "hi". -/
def P1.convHi : List P1.PMsg := [⟨0, "me", ['h', 'i'], 0⟩]

/-- A deterministic stand-in for `Math.random()` (no draw is consumed in
manual mode for a script without contact lines). -/
def P1.rhoZero : Nat → Rat := fun _ => 0

/-- Claim C4 evaluated on the code.  In part_001 the effect pushes a
delivery timeout for every line of the script including actor ("me")
lines, so with the one-actor-line script "hi", manual timing and initial
delay 0, merely advancing virtual time to 0 - with no key signal at all -
delivers the actor line.  By contrast, shell 1 honours the claim: on an
actor turn `processNextMessage` returns without scheduling anything. -/
theorem actor_line_timer_fires :
    (P1.pAdvanceTo 0 (P1.pMount P1.convHi ⟨P1.PTimingMode.manual, 0⟩
        P1.rhoZero)).2 = [P1.PEvent.delivered 0 0 ['h', 'i']]
    ∧ (P1.pAdvanceTo 0 (P1.pMount P1.convHi ⟨P1.PTimingMode.manual, 0⟩
        P1.rhoZero)).1.messages = P1.convHi
    ∧ (∀ (cfg : List App1.AMsg) (s : App1.ChatState),
        App1.isActorTurn cfg s = true →
        App1.processNextMessage cfg s = s) := by
  refine ⟨?_, ?_, ?_⟩
  · norm_num [P1.pAdvanceTo, P1.pMount, P1.buildTimers, P1.buildTimersGo,
      P1.convHi, P1.rhoZero, P1.pFireAll, P1.pFire, List.filter]
  · norm_num [P1.pAdvanceTo, P1.pMount, P1.buildTimers, P1.buildTimersGo,
      P1.convHi, P1.rhoZero, P1.pFireAll, P1.pFire, List.filter]
  · intro cfg s h
    simp [App1.processNextMessage, h]

/-- Witness for C4: the shell 1 conjunct at a mounted one-actor-line
session. -/
theorem actor_line_timer_fires_witness :
    App1.processNextMessage [⟨0, "you", ['a'], App1.DelayVal.num 1,
        App1.DelayVal.natural⟩]
      (App1.liveChatMount [⟨0, "you", ['a'], App1.DelayVal.num 1,
        App1.DelayVal.natural⟩])
      = App1.liveChatMount [⟨0, "you", ['a'], App1.DelayVal.num 1,
        App1.DelayVal.natural⟩] :=
  actor_line_timer_fires.2.2 _ _ (by decide)

/-- Claim C1 evaluated on the code: in part_001, with the one-actor-line
script "hi" and initial delay 1, the actor completes the forced line and
submits it at time 0 (one delivery of id 0), and then the timeout the
effect had scheduled for the very same line fires at 1000 and delivers id 0
a second time: the transcript ends with id list `[0, 0]`, so one line
identifier is delivered twice in a single playback session. -/
theorem duplicate_delivery_evaluation :
    ((P1.pDrive ⟨P1.convHi, ⟨P1.PTimingMode.manual, 1⟩,
        P1.pMount P1.convHi ⟨P1.PTimingMode.manual, 1⟩ P1.rhoZero⟩
        [P1.PInput.actorSend ['h', 'i'],
         P1.PInput.advance 1000]).1.state.messages.map P1.PMsg.id) = [0, 0]
    ∧ (P1.pDrive ⟨P1.convHi, ⟨P1.PTimingMode.manual, 1⟩,
        P1.pMount P1.convHi ⟨P1.PTimingMode.manual, 1⟩ P1.rhoZero⟩
        [P1.PInput.actorSend ['h', 'i'], P1.PInput.advance 1000]).2
      = [P1.PEvent.delivered 0 0 ['h', 'i'],
         P1.PEvent.delivered 1000 0 ['h', 'i']] := by
  constructor
  · norm_num [P1.pDrive, P1.pDriveStep, P1.pAdvanceTo, P1.pMount,
      P1.buildTimers, P1.buildTimersGo, P1.convHi, P1.rhoZero, P1.pFireAll,
      P1.pFire, P1.handleActorSend, P1.findNextMe, List.filter]
  · norm_num [P1.pDrive, P1.pDriveStep, P1.pAdvanceTo, P1.pMount,
      P1.buildTimers, P1.buildTimersGo, P1.convHi, P1.rhoZero, P1.pFireAll,
      P1.pFire, P1.handleActorSend, P1.findNextMe, List.filter]
/-- A shell 1 script of two consecutive actor lines, "ab" then "cd". -/
def App1.cfgTwoActors : List App1.AMsg :=
  [⟨0, "you", ['a', 'b'], App1.DelayVal.num 1, App1.DelayVal.natural⟩,
   ⟨1, "you", ['c', 'd'], App1.DelayVal.num 1, App1.DelayVal.natural⟩]

/-- Claim C8 evaluated on the code: in shell 1, after the actor completes
and submits the first of two consecutive actor lines ("ab", via two
printable signals and Enter), the session is on the second line ("cd") but
the forced-input hook state is the stale `⟨"ab", 2⟩` instead of a fresh
`⟨"", 0⟩` - the conditionally rendered `ForcedTypingInput` stays mounted
across consecutive actor turns, so its `useState` is never re-initialised
and the hook itself never resets on completion.  One further Enter is
then already submit-eligible and delivers the second line with the text
"ab" of the first. -/
theorem stale_forced_input_state :
    (App1.chatRun App1.cfgTwoActors (App1.liveChatMount App1.cfgTwoActors)
        [App1.ChatInput.key (Key.printable 'x'),
         App1.ChatInput.key (Key.printable 'y'),
         App1.ChatInput.key Key.enter]).1.scriptIndex = 1
    ∧ (App1.chatRun App1.cfgTwoActors (App1.liveChatMount App1.cfgTwoActors)
        [App1.ChatInput.key (Key.printable 'x'),
         App1.ChatInput.key (Key.printable 'y'),
         App1.ChatInput.key Key.enter]).1.ftInput = some ⟨['a', 'b'], 2⟩
    ∧ (App1.chatRun App1.cfgTwoActors (App1.liveChatMount App1.cfgTwoActors)
        [App1.ChatInput.key (Key.printable 'x'),
         App1.ChatInput.key (Key.printable 'y'),
         App1.ChatInput.key Key.enter]).1.ftInput ≠ some ftFresh
    ∧ ((App1.chatRun App1.cfgTwoActors (App1.liveChatMount App1.cfgTwoActors)
        [App1.ChatInput.key (Key.printable 'x'),
         App1.ChatInput.key (Key.printable 'y'),
         App1.ChatInput.key Key.enter,
         App1.ChatInput.key Key.enter]).1.displayedMessages.map
          App1.AMsg.text) = [['a', 'b'], ['a', 'b']] := by
  refine ⟨by decide, by decide, by decide, by decide⟩
/-- A shell 1 script of one autonomous line "a" with manual start delay 0
and typing speed setting 1. -/
def App1.cfgManualZero : List App1.AMsg :=
  [⟨0, "c1", ['a'], App1.DelayVal.num 0, App1.DelayVal.num 1⟩]

/-- Counterexample to claim C7: a manual line with delay 0 is not waited on
for 0 ms and is not delivered at about t = 0.  In shell 1 the `|| 1000`
fallback turns the zero product into a 1000 ms pre-delay, and delivery
then waits the simulated typing window on top: the only delivery of the
session fires at t = 1050, not at 0 * 1000 = 0. -/
theorem manual_delay_zero_counterexample :
    App1.startDelayMs (App1.DelayVal.num 0) 1 = 1000
    ∧ App1.startDelayMs (App1.DelayVal.num 0) 1 ≠ 0 * 1000
    ∧ (App1.chatRun App1.cfgManualZero
        (App1.liveChatMount App1.cfgManualZero)
        [App1.ChatInput.tick, App1.ChatInput.tick]).2
      = [App1.AEvent.typingStarted 1000,
         App1.AEvent.delivered 1050 0 ['a']]
    ∧ (1050 : Rat) ≠ 0 := by
  refine ⟨by norm_num [App1.startDelayMs], by norm_num [App1.startDelayMs],
    ?_, by norm_num⟩
  norm_num [App1.chatRun, App1.chatTick, App1.liveChatMount, App1.settle,
    App1.processNextMessage, App1.renderLiveChat, App1.isActorTurn,
    App1.cfgManualZero, App1.startDelayMs, App1.typingSpeedMs,
    show ¬ ("c1" : String) = "you" by decide]

/-- Claim C7 as amended.  In shell 1 manual timing: the pre-delay equals
manualDelaySeconds * 1000 whenever that product is nonzero, a zero product
falls back to 1000 ms, and for a single autonomous line the delivery event
fires at pre-delay plus the simulated typing window (length times typing
speed) - not at the pre-delay alone.  In part_001 manual timing: the
per-message delay never precedes the delivery of its own line (the fire
times of a one-line schedule are unchanged by that delay); in a two-line
schedule the first delay is inserted between the delivery of line one and
the typing phase of line two, while each contact delivery waits a
1000 + random * 1000 typing window of its own. -/
theorem manual_timing_semantics :
    (∀ (q : Rat) (len : Nat), q * 1000 ≠ 0 →
      App1.startDelayMs (App1.DelayVal.num q) len = q * 1000)
    ∧ (∀ len : Nat, App1.startDelayMs (App1.DelayVal.num 0) len = 1000)
    ∧ (∀ m : App1.AMsg, m.participantId ≠ "you" →
      (App1.chatRun [m] (App1.liveChatMount [m])
          [App1.ChatInput.tick, App1.ChatInput.tick]).2 =
        [App1.AEvent.typingStarted
            (App1.startDelayMs m.startDelay m.text.length),
         App1.AEvent.delivered
           (App1.startDelayMs m.startDelay m.text.length +
             (m.text.length : Rat) *
               App1.typingSpeedMs m.typingDelay m.text.length)
           m.id m.text])
    ∧ (∀ (m : P1.PMsg) (rho : Nat → Rat) (d : Rat), m.sender ≠ "me" →
      (P1.buildTimers 0 [m] ⟨P1.PTimingMode.manual, 0⟩ rho).map
          P1.PTimer.fireAt =
        (P1.buildTimers 0 [{ m with delay := d }]
            ⟨P1.PTimingMode.manual, 0⟩ rho).map P1.PTimer.fireAt)
    ∧ (∀ (m1 m2 : P1.PMsg) (rho : Nat → Rat),
      m1.sender ≠ "me" → m2.sender ≠ "me" →
      (P1.buildTimers 0 [m1, m2] ⟨P1.PTimingMode.manual, 0⟩ rho).map
          P1.PTimer.fireAt =
        [0 + 0 * 1000,
         0 + 0 * 1000 + (1000 + rho 0 * 1000),
         0 + 0 * 1000 + (1000 + rho 0 * 1000) + m1.delay * 1000,
         0 + 0 * 1000 + (1000 + rho 0 * 1000) + m1.delay * 1000
           + (1000 + rho 1 * 1000)]) := by
  refine ⟨?_, ?_, ?_, ?_, ?_⟩
  · intro q len h
    simp only [App1.startDelayMs, if_neg h]
  · intro len
    norm_num [App1.startDelayMs]
  · intro m h
    have hb : (m.participantId == "you") = false := by
      simpa using h
    simp [App1.chatRun, App1.chatTick, App1.liveChatMount, App1.settle,
      App1.processNextMessage, App1.renderLiveChat, App1.isActorTurn, hb]
  · intro m rho d h
    simp [P1.buildTimers, P1.buildTimersGo, h]
  · intro m1 m2 rho h1 h2
    simp [P1.buildTimers, P1.buildTimersGo, h1, h2]

/-- Witness for the amended C7 at concrete inputs. -/
theorem manual_timing_semantics_witness :
    App1.startDelayMs (App1.DelayVal.num 2) 1 = 2 * 1000
    ∧ App1.startDelayMs (App1.DelayVal.num 0) 3 = 1000
    ∧ (App1.chatRun [⟨0, "c1", ['a'], App1.DelayVal.num 2,
          App1.DelayVal.num 1⟩]
        (App1.liveChatMount [⟨0, "c1", ['a'], App1.DelayVal.num 2,
          App1.DelayVal.num 1⟩])
        [App1.ChatInput.tick, App1.ChatInput.tick]).2 =
      [App1.AEvent.typingStarted
          (App1.startDelayMs (App1.DelayVal.num 2) 1),
       App1.AEvent.delivered
         (App1.startDelayMs (App1.DelayVal.num 2) 1 +
           (1 : Rat) * App1.typingSpeedMs (App1.DelayVal.num 1) 1) 0 ['a']]
    ∧ (P1.buildTimers 0 [⟨0, "c1", ['a'], 7⟩]
          ⟨P1.PTimingMode.manual, 0⟩ P1.rhoZero).map P1.PTimer.fireAt =
      (P1.buildTimers 0 [⟨0, "c1", ['a'], 0⟩]
          ⟨P1.PTimingMode.manual, 0⟩ P1.rhoZero).map P1.PTimer.fireAt
    ∧ (P1.buildTimers 0 [⟨0, "c1", ['a'], 7⟩, ⟨1, "c2", ['b'], 3⟩]
          ⟨P1.PTimingMode.manual, 0⟩ P1.rhoZero).map P1.PTimer.fireAt =
      [0 + 0 * 1000,
       0 + 0 * 1000 + (1000 + P1.rhoZero 0 * 1000),
       0 + 0 * 1000 + (1000 + P1.rhoZero 0 * 1000) + 7 * 1000,
       0 + 0 * 1000 + (1000 + P1.rhoZero 0 * 1000) + 7 * 1000
         + (1000 + P1.rhoZero 1 * 1000)] := by
  have h := manual_timing_semantics
  refine ⟨h.1 2 1 (by norm_num), h.2.1 3,
    h.2.2.1 ⟨0, "c1", ['a'], App1.DelayVal.num 2, App1.DelayVal.num 1⟩
      (by decide), ?_, ?_⟩
  · exact h.2.2.2.1 ⟨0, "c1", ['a'], 7⟩ P1.rhoZero 0 (by decide)
  · exact h.2.2.2.2 ⟨0, "c1", ['a'], 7⟩ ⟨1, "c2", ['b'], 3⟩ P1.rhoZero
      (by decide) (by decide)
/-- One-contact-line scripts "a" and "b" used to exhibit the effect of a
post-start edit. -/
def P1.convA : List P1.PMsg := [⟨0, "c1", ['a'], 0⟩]

/-- The same script with the text edited to "b". -/
def P1.convB : List P1.PMsg := [⟨0, "c1", ['b'], 0⟩]

/-- Counterexample to claim C5: two part_001 sessions that start from the
same script and differ only in a post-start edit of the authoring data do
not produce identical playback events - the engine keeps no snapshot, so
the edited run delivers the edited text. -/
theorem snapshot_counterexample :
    (P1.pDrive ⟨P1.convA, ⟨P1.PTimingMode.manual, 0⟩,
        P1.pMount P1.convA ⟨P1.PTimingMode.manual, 0⟩ P1.rhoZero⟩
        [P1.PInput.advance 5000]).2
      = [P1.PEvent.typingStarted 0, P1.PEvent.delivered 1000 0 ['a']]
    ∧ (P1.pDrive ⟨P1.convA, ⟨P1.PTimingMode.manual, 0⟩,
        P1.pMount P1.convA ⟨P1.PTimingMode.manual, 0⟩ P1.rhoZero⟩
        [P1.PInput.edit P1.convB ⟨P1.PTimingMode.manual, 0⟩ P1.rhoZero,
         P1.PInput.advance 5000]).2
      = [P1.PEvent.typingStarted 0, P1.PEvent.delivered 1000 0 ['b']]
    ∧ (P1.pDrive ⟨P1.convA, ⟨P1.PTimingMode.manual, 0⟩,
        P1.pMount P1.convA ⟨P1.PTimingMode.manual, 0⟩ P1.rhoZero⟩
        [P1.PInput.advance 5000]).2
      ≠ (P1.pDrive ⟨P1.convA, ⟨P1.PTimingMode.manual, 0⟩,
        P1.pMount P1.convA ⟨P1.PTimingMode.manual, 0⟩ P1.rhoZero⟩
        [P1.PInput.edit P1.convB ⟨P1.PTimingMode.manual, 0⟩ P1.rhoZero,
         P1.PInput.advance 5000]).2 := by
  have h1 : (P1.pDrive ⟨P1.convA, ⟨P1.PTimingMode.manual, 0⟩,
      P1.pMount P1.convA ⟨P1.PTimingMode.manual, 0⟩ P1.rhoZero⟩
      [P1.PInput.advance 5000]).2
      = [P1.PEvent.typingStarted 0, P1.PEvent.delivered 1000 0 ['a']] := by
    norm_num [P1.pDrive, P1.pDriveStep, P1.pAdvanceTo, P1.pMount,
      P1.buildTimers, P1.buildTimersGo, P1.convA, P1.rhoZero, P1.pFireAll,
      P1.pFire, List.filter]
  have h2 : (P1.pDrive ⟨P1.convA, ⟨P1.PTimingMode.manual, 0⟩,
      P1.pMount P1.convA ⟨P1.PTimingMode.manual, 0⟩ P1.rhoZero⟩
      [P1.PInput.edit P1.convB ⟨P1.PTimingMode.manual, 0⟩ P1.rhoZero,
       P1.PInput.advance 5000]).2
      = [P1.PEvent.typingStarted 0, P1.PEvent.delivered 1000 0 ['b']] := by
    norm_num [P1.pDrive, P1.pDriveStep, P1.pAdvanceTo, P1.pMount,
      P1.pEffectRun, P1.buildTimers, P1.buildTimersGo, P1.convA, P1.convB,
      P1.rhoZero, P1.pFireAll, P1.pFire, List.filter]
  refine ⟨h1, h2, ?_⟩
  rw [h1, h2]
  simp

theorem P1.buildTimersGo_shift (st : P1.PSettings) (rho : Nat → Rat)
    (l : List P1.PMsg) (d : Rat) :
    ∀ (c : Rat) (j : Nat),
    P1.buildTimersGo st rho l (d + c) j =
      (P1.buildTimersGo st rho l c j).map
        (fun tm => ⟨d + tm.fireAt, tm.act⟩) := by
  induction l with
  | nil => intro c j; simp [P1.buildTimersGo]
  | cons m rest ih =>
    intro c j
    simp only [P1.buildTimersGo]
    by_cases h : m.sender = "me"
    · simp only [h, if_true, if_pos, List.map_cons]
      rw [add_assoc, ih]
    · simp only [h, if_false, if_neg, List.map_cons]
      rw [add_assoc, add_assoc, ih]

/-- Claim C5 as amended: part_001 keeps no snapshot; instead, any edit of
the conversation or the settings while a session is live re-runs the
effect, which cancels every pending timeout, wipes the transcript, resets
the typing indicator and the cursor, and replays the edited script from
scratch - the post-edit session is exactly a fresh session of the edited
script, time-shifted to the edit moment, with no dependence on the
previous session state. -/
theorem edit_restarts_session (conv : List P1.PMsg) (st : P1.PSettings)
    (rho : Nat → Rat) (s : P1.PState) :
    (P1.pEffectRun conv st rho s).messages = []
    ∧ (P1.pEffectRun conv st rho s).isTyping = false
    ∧ (P1.pEffectRun conv st rho s).currentScriptIndex = 0
    ∧ (P1.pEffectRun conv st rho s).pending =
        (P1.pMount conv st rho).pending.map
          (fun tm => ⟨s.now + tm.fireAt, tm.act⟩) := by
  refine ⟨rfl, rfl, rfl, ?_⟩
  show P1.buildTimers s.now conv st rho = _
  rw [P1.pMount]
  show _ = (P1.buildTimers 0 conv st rho).map _
  rw [P1.buildTimers, P1.buildTimers, zero_add,
    show s.now + st.initialDelay * 1000 = s.now + (st.initialDelay * 1000)
      from rfl,
    P1.buildTimersGo_shift]
